import Mathlib

/-!
Verification of the benchmark-log parsing and reporting script
(`parse_results.py`).  The script reads a results log, builds a nested
mapping build → size → container → cpu-time, and prints three reports
(a per-compiler comparison table, a best/worst-per-size table and a
win-count summary).  We embed the script shallowly: strings are lists of
characters, Python dicts are insertion-ordered association lists,
floating-point times are rationals, and the fallible parsing loop
returns `Except`.
-/

set_option autoImplicit false

namespace ParseResults

/-- Strings are modelled as lists of characters. -/
abbrev Str := List Char

/-- Boolean prefix test, `isPre p s = true` iff `p` is a prefix of `s`.
Models the anchored part of Python's `str.startswith` and `re.match`. -/
def isPre : Str → Str → Bool
  | [], _ => true
  | _ :: _, [] => false
  | a :: as, b :: bs => a = b && isPre as bs

/-- Substring containment, models Python's `pat in s`. -/
def occursIn (p : Str) : Str → Bool
  | [] => p.isEmpty
  | c :: rest => isPre p (c :: rest) || occursIn p rest

/-- Fuel-indexed worker for `removeAll`; the fuel is an upper bound on the
length of the string being scanned, so the recursion is structural and
concrete applications reduce by `decide`. -/
def removeAllF : Nat → Str → Str → Str
  | 0, _, _ => []
  | _ + 1, _, [] => []
  | fuel + 1, p, c :: rest =>
    if isPre p (c :: rest) && !p.isEmpty then
      removeAllF fuel p (rest.drop (p.length - 1))
    else
      c :: removeAllF fuel p rest

/-- `removeAll p s` deletes every (left-to-right, non-overlapping)
occurrence of `p` from `s`; models Python's `s.replace(p, '')`. -/
def removeAll (p s : Str) : Str := removeAllF s.length p s

/-- Splits a string at commas; models Python's `line.split(',')`. -/
def splitComma : Str → List Str
  | [] => [[]]
  | c :: rest =>
    if c = ',' then [] :: splitComma rest
    else
      match splitComma rest with
      | [] => [[c]]
      | s :: ss => (c :: s) :: ss

/-- Removes leading and trailing whitespace; models `line.strip()`. -/
def stripWS (s : Str) : Str :=
  ((s.dropWhile Char.isWhitespace).reverse.dropWhile Char.isWhitespace).reverse

/-- Removes leading and trailing double quotes; models `s.strip('"')`. -/
def stripQuotes (s : Str) : Str :=
  ((s.dropWhile (fun c => c = '"')).reverse.dropWhile (fun c => c = '"')).reverse

/-- Value of a digit string, most significant first; models `int(ds)`. -/
def digitsToNat (ds : Str) : Nat :=
  ds.foldl (fun acc c => 10 * acc + (c.toNat - 48)) 0

/-- Models Python's `float(s)` on the plain decimal literals appearing in
this log format (optional sign, digits, optional fractional part), read
as an exact rational; any other shape is a `ValueError` (`none`). -/
def parseFloat (s : Str) : Option ℚ :=
  let core := fun (t : Str) (sgn : ℚ) =>
    let ip := t.takeWhile Char.isDigit
    let rest := t.dropWhile Char.isDigit
    match rest with
    | [] =>
      if ip.isEmpty then none
      else some (sgn * (digitsToNat ip : ℚ))
    | '.' :: fr =>
      let fp := fr.takeWhile Char.isDigit
      if !(fr.dropWhile Char.isDigit).isEmpty then none
      else if ip.isEmpty && fp.isEmpty then none
      else some (sgn * ((digitsToNat ip : ℚ) + (digitsToNat fp : ℚ) / (10 : ℚ) ^ fp.length))
    | _ => none
  match s with
  | '-' :: t => core t (-1)
  | '+' :: t => core t 1
  | t => core t 1

/-- The two benchmarked container variants. -/
inductive ContainerType : Type
  | xtensor
  | fixed
deriving DecidableEq, Repr

/-- First-match association-list lookup; models Python dict indexing and
`dict.get`. -/
def lookupA {α β : Type} [DecidableEq α] (k : α) : List (α × β) → Option β
  | [] => none
  | (k', v) :: rest => if k' = k then some v else lookupA k rest

/-- Insertion-ordered association-list update: an existing key keeps its
position and its value is rewritten, a new key is appended.  Models
`d[k] = v` on a Python (insertion-ordered) dict. -/
def updAssoc {α β : Type} [DecidableEq α] (k : α) (f : Option β → β) :
    List (α × β) → List (α × β)
  | [] => [(k, f none)]
  | (k', v) :: rest =>
    if k' = k then (k', f (some v)) :: rest else (k', v) :: updAssoc k f rest

/-- Positional list indexing, models Python `l[i]` returning `none` on an
`IndexError`. -/
def getIdx {α : Type} : List α → Nat → Option α
  | [], _ => none
  | a :: _, 0 => some a
  | _ :: t, n + 1 => getIdx t n

/-- Per-size data: container type → cpu time (a Python dict). -/
abbrev SD := List (ContainerType × ℚ)

/-- Per-build data: size → per-size data. -/
abbrev BuildData := List (Nat × SD)

/-- The `results` table: build name → per-build data. -/
abbrev Table := List (Str × BuildData)

/-- The literal `"xtensor_double_"` name pattern head. -/
def xtPre : Str := ("xtensor_double_").data

/-- The literal `"fixed_double_"` name pattern head. -/
def fxPre : Str := ("fixed_double_").data

/-- Models `re.match(r'(xtensor|fixed)_double_(\d+)', name)`: the regex is
anchored at the start only, tries `xtensor` before `fixed`, and `\d+`
greedily takes the maximal leading digit run; trailing characters are
ignored. -/
def matchName (s : Str) : Option (ContainerType × Nat) :=
  if isPre xtPre s then
    if ((s.drop xtPre.length).takeWhile Char.isDigit).isEmpty then none
    else some (ContainerType.xtensor, digitsToNat ((s.drop xtPre.length).takeWhile Char.isDigit))
  else if isPre fxPre s then
    if ((s.drop fxPre.length).takeWhile Char.isDigit).isEmpty then none
    else some (ContainerType.fixed, digitsToNat ((s.drop fxPre.length).takeWhile Char.isDigit))
  else none

/-- Records `results[build][size][ct] = t` on the nested defaultdict. -/
def insertMeas (tbl : Table) (b : Str) (size : Nat) (ct : ContainerType) (t : ℚ) : Table :=
  updAssoc b
    (fun od => updAssoc size
      (fun osd => updAssoc ct (fun _ => t) (osd.getD []))
      (od.getD []))
    tbl

/-- The fatal errors the parsing loop can raise: a missing fourth field
(`IndexError` from `parts[3]`) or a malformed number (`ValueError` from
`float`). -/
inductive ParseErr : Type
  | indexErr
  | valueErr
deriving DecidableEq, Repr

/-- Parser state: the `current_build` context and the results table. -/
abbrev ParseState := Option Str × Table

/-- The literal `'=== build_'` header test string. -/
def hdrPre : Str := ("=== build_").data

/-- The literal `'=== '` removed from headers. -/
def preMark : Str := ("=== ").data

/-- The literal `' ==='` removed from headers. -/
def sufMark : Str := (" ===").data

/-- One iteration of the parsing loop: strip the line, switch the
current-build context on a header line, and otherwise record a data line
(a quoted CSV row) when a build context is set.  The fourth field is
converted with `float` before the name pattern is tested, exactly as in
the source, so a malformed row fails even when its name would not match. -/
def processLine (st : ParseState) (rawLine : Str) : Except ParseErr ParseState :=
  if isPre hdrPre (stripWS rawLine) then
    Except.ok (some (removeAll sufMark (removeAll preMark (stripWS rawLine))), st.2)
  else
    match st.1, stripWS rawLine with
    | some b, '"' :: _ =>
      match getIdx (splitComma (stripWS rawLine)) 3 with
      | none => Except.error ParseErr.indexErr
      | some f3 =>
        match parseFloat f3 with
        | none => Except.error ParseErr.valueErr
        | some t =>
          match matchName (stripQuotes ((splitComma (stripWS rawLine)).headD [])) with
          | none => Except.ok (some b, st.2)
          | some cs => Except.ok (some b, insertMeas st.2 b cs.2 cs.1 t)
    | _, _ => Except.ok st

/-- Runs the parsing loop over all lines, stopping at the first error. -/
def parseLines : List Str → ParseState → Except ParseErr ParseState
  | [], st => Except.ok st
  | l :: ls, st =>
    match processLine st l with
    | Except.error e => Except.error e
    | Except.ok st' => parseLines ls st'

/-- Parses a whole file (as a list of lines) into the results table. -/
def parseFile (ls : List Str) : Except ParseErr Table :=
  (parseLines ls (none, [])).map (fun st => st.2)

/-- The literal `'build_'` prefix. -/
def bldMark : Str := ("build_").data

/-- The literal `'_xsimd'` marker. -/
def xsMark : Str := ("_xsimd").data

/-- The literal `'_noxsimd'` marker. -/
def nxsMark : Str := ("_noxsimd").data

/-- Models `parse_build_name`: strip `'build_'`, then classify by the
presence of the `'_xsimd'` substring, removing the matching marker. -/
def parse_build_name (name : Str) : Str × Str :=
  let n := removeAll bldMark name
  if occursIn xsMark n then (removeAll xsMark n, ("xsimd").data)
  else (removeAll nxsMark n, ("noxsimd").data)

/-- The fixed size enumeration iterated by every reporter. -/
def sizesList : List Nat := [1, 2, 3, 4, 5, 6, 7, 8, 9, 10, 16, 32, 64, 128, 256, 512, 1024]

/-- `data[size].get('xtensor', 0)` for an already-fetched per-size dict. -/
def xtOf (sd : SD) : ℚ := (lookupA ContainerType.xtensor sd).getD 0

/-- `data[size].get('fixed', 0)` for an already-fetched per-size dict. -/
def fxOf (sd : SD) : ℚ := (lookupA ContainerType.fixed sd).getD 0

/-- Python's `round` to one decimal as used by the `:.1f` format (on the
exact rational value). -/
def round1 (q : ℚ) : ℚ := (round (10 * q) : ℤ) / 10

/-- One printed row of the comparison table. -/
structure CompRow : Type where
  size : Nat
  xt : ℚ
  fx : ℚ
  rat : ℚ
  winner : ContainerType
  disp : ℚ
deriving DecidableEq, Repr

/-- Builds the comparison row printed for per-size data `sd`:
`ratio = xtensor_time / fixed_time`, winner `fixed` iff `ratio > 1`, and
the displayed speedup factor is the winner-relative ratio rounded to one
decimal. -/
def mkRow (size : Nat) (sd : SD) : CompRow :=
  { size := size
    xt := xtOf sd
    fx := fxOf sd
    rat := xtOf sd / fxOf sd
    winner := if 1 < xtOf sd / fxOf sd then ContainerType.fixed else ContainerType.xtensor
    disp := if 1 < xtOf sd / fxOf sd then round1 (xtOf sd / fxOf sd)
            else round1 (1 / (xtOf sd / fxOf sd)) }

/-- The comparison-table body for one size: a row is produced when the
size is a key of `data` and both looked-up times (missing containers
defaulting to `0`) are strictly positive. -/
def compRowFor (data : BuildData) (size : Nat) : Option CompRow :=
  match lookupA size data with
  | none => none
  | some sd =>
    if 0 < xtOf sd ∧ 0 < fxOf sd then some (mkRow size sd) else none

/-- All rows of the comparison table for one build's data, in size order. -/
def comparisonRows (data : BuildData) : List CompRow :=
  sizesList.filterMap (compRowFor data)

/-- One iteration of the win-summary loop over the accumulator
`(fixed_wins, xtensor_wins, total_fixed_speedup)`. -/
def winStep (data : BuildData) (acc : Nat × Nat × ℚ) (size : Nat) : Nat × Nat × ℚ :=
  match lookupA size data with
  | none => acc
  | some sd =>
    if 0 < xtOf sd ∧ 0 < fxOf sd then
      if fxOf sd < xtOf sd then (acc.1 + 1, acc.2.1, acc.2.2 + xtOf sd / fxOf sd)
      else (acc.1, acc.2.1 + 1, acc.2.2)
    else acc

/-- The win-summary accumulation for one build's data:
`(fixed_wins, xtensor_wins, total_fixed_speedup)`. -/
def winSummary (data : BuildData) : Nat × Nat × ℚ :=
  sizesList.foldl (winStep data) (0, 0, 0)

/-- The reported average speedup when `fixed` wins, with the guarded
division: `total_fixed_speedup / fixed_wins if fixed_wins > 0 else 0`. -/
def avgSpeedup (data : BuildData) : ℚ :=
  if 0 < (winSummary data).1 then (winSummary data).2.2 / ((winSummary data).1 : ℚ)
  else 0

/-- Bookkeeping predicate: the size is a key of `data` and both looked-up
times are strictly positive (the row/counting guard of the reporters). -/
def rowGuard (data : BuildData) (size : Nat) : Bool :=
  match lookupA size data with
  | none => false
  | some sd => decide (0 < xtOf sd ∧ 0 < fxOf sd)

/-- Bookkeeping predicate: the guard holds and `fixed` wins strictly. -/
def winB (data : BuildData) (size : Nat) : Bool :=
  match lookupA size data with
  | none => false
  | some sd => decide (0 < xtOf sd ∧ 0 < fxOf sd) && decide (fxOf sd < xtOf sd)

/-- Bookkeeping predicate: the guard holds and `fixed` does not win. -/
def loseB (data : BuildData) (size : Nat) : Bool :=
  match lookupA size data with
  | none => false
  | some sd => decide (0 < xtOf sd ∧ 0 < fxOf sd) && !decide (fxOf sd < xtOf sd)

/-- The ratio `xtensor_time / fixed_time` looked up at a size. -/
def ratAt (data : BuildData) (size : Nat) : ℚ :=
  match lookupA size data with
  | none => 0
  | some sd => xtOf sd / fxOf sd

/-- Spec-side predicate (claim wording): both container types have a
recorded measurement at this size, whatever their values. -/
def bothRec (data : BuildData) (size : Nat) : Bool :=
  match lookupA size data with
  | none => false
  | some sd => (lookupA ContainerType.xtensor sd).isSome && (lookupA ContainerType.fixed sd).isSome

/-- The printed name of a container type. -/
def ctLabel : ContainerType → Str
  | ContainerType.xtensor => ("xtensor").data
  | ContainerType.fixed => ("fixed").data

/-- The configuration label `f"{compiler}_{xsimd_status}_{container_type}"`. -/
def configLabel (compiler mode : Str) (ct : ContainerType) : Str :=
  compiler ++ ('_' :: mode) ++ ('_' :: ctLabel ct)

/-- The measurements scanned by the best/worst loop for one size, in scan
order: builds in table order, containers in the order
`['xtensor', 'fixed']`, keeping only recorded entries. -/
def collectMeasurements (tbl : Table) (size : Nat) : List (Str × ℚ) :=
  (tbl.map (fun bd =>
    ([ContainerType.xtensor, ContainerType.fixed]).filterMap (fun ct =>
      match lookupA size bd.2 with
      | none => none
      | some sd =>
        match lookupA ct sd with
        | none => none
        | some t =>
          some (configLabel (parse_build_name bd.1).1 (parse_build_name bd.1).2 ct, t)))).flatten

/-- The four loop variables of the best/worst scan; `bt = none` models
the initial `float('inf')`. -/
structure BW : Type where
  bt : Option ℚ
  bc : Str
  wt : ℚ
  wc : Str
deriving DecidableEq, Repr

/-- `time < best_time` against the possibly-infinite best. -/
def ltBest (bt : Option ℚ) (t : ℚ) : Bool :=
  match bt with
  | none => true
  | some b => decide (t < b)

/-- The best-tracking half of the loop body. -/
def bStep (acc : Option ℚ × Str) (p : Str × ℚ) : Option ℚ × Str :=
  if ltBest acc.1 p.2 then (some p.2, p.1) else acc

/-- The worst-tracking half of the loop body. -/
def wStep (acc : ℚ × Str) (p : Str × ℚ) : ℚ × Str :=
  if acc.1 < p.2 then (p.2, p.1) else acc

/-- One iteration of the best/worst loop body: the two independent
`if time < best_time` / `if time > worst_time` updates. -/
def bwStep (acc : BW) (p : Str × ℚ) : BW :=
  { bt := (bStep (acc.bt, acc.bc) p).1
    bc := (bStep (acc.bt, acc.bc) p).2
    wt := (wStep (acc.wt, acc.wc) p).1
    wc := (wStep (acc.wt, acc.wc) p).2 }

/-- Initial loop state: `best_time = inf`, `best_config = ""`,
`worst_time = 0`, `worst_config = ""`. -/
def bwInit : BW := { bt := none, bc := [], wt := 0, wc := [] }

/-- The best/worst scan result for one size. -/
def bestWorstAt (tbl : Table) (size : Nat) : BW :=
  (collectMeasurements tbl size).foldl bwStep bwInit

/-- Spec-side recursion: the first element of the list attaining the
minimum time (earlier elements win ties). -/
def firstMin : List (Str × ℚ) → Option (Str × ℚ)
  | [] => none
  | p :: rest =>
    match firstMin rest with
    | none => some p
    | some q => if p.2 ≤ q.2 then some p else some q

/-- Spec-side recursion: the first element of the list attaining the
maximum time (earlier elements win ties). -/
def firstMax : List (Str × ℚ) → Option (Str × ℚ)
  | [] => none
  | p :: rest =>
    match firstMax rest with
    | none => some p
    | some q => if q.2 ≤ p.2 then some p else some q

/-- The other container type. -/
def otherCT : ContainerType → ContainerType
  | ContainerType.xtensor => ContainerType.fixed
  | ContainerType.fixed => ContainerType.xtensor

/-- Exchanges the two container values within one per-size dict. -/
def swapSD (sd : SD) : SD := sd.map (fun p => (otherCT p.1, p.2))

/-- Exchanges the two container values at every size of a build's data. -/
def swapData (data : BuildData) : BuildData := data.map (fun p => (p.1, swapSD p.2))

/-- The marker re-attached for a given mode string: `'_' + mode`. -/
def markerOf (mode : Str) : Str := '_' :: mode

/-- Reconstructs a build identifier from a decomposition, following the
fixed suffix convention `build_<compiler_id><marker>`. -/
def recombine (cm : Str × Str) : Str := bldMark ++ cm.1 ++ markerOf cm.2

theorem removeAllF_nil (n : Nat) (p : Str) : removeAllF n p [] = [] := by
  cases n <;> rfl

theorem removeAllF_congr (p : Str) :
    ∀ (n : Nat) (m : Nat) (s : Str), s.length ≤ n → s.length ≤ m →
      removeAllF n p s = removeAllF m p s := by
  intro n
  induction n with
  | zero =>
    intro m s hn _
    have hs : s = [] := List.length_eq_zero.mp (Nat.le_zero.mp hn)
    subst hs
    simp [removeAllF_nil]
  | succ k ih =>
    intro m s hn hm
    cases s with
    | nil => simp [removeAllF_nil]
    | cons c rest =>
      cases m with
      | zero => simp at hm
      | succ m' =>
        simp only [removeAllF]
        by_cases h : (isPre p (c :: rest) && !p.isEmpty) = true
        · simp only [h, if_true]
          apply ih
          · calc (rest.drop (p.length - 1)).length ≤ rest.length := by
                  simp [List.length_drop]
              _ ≤ k := by simpa using Nat.lt_succ_iff.mp (Nat.lt_of_lt_of_le (Nat.lt_succ_self _) hn)
          · calc (rest.drop (p.length - 1)).length ≤ rest.length := by
                  simp [List.length_drop]
              _ ≤ m' := by simpa using Nat.lt_succ_iff.mp (Nat.lt_of_lt_of_le (Nat.lt_succ_self _) hm)
        · rw [Bool.not_eq_true] at h
          have h1 : rest.length ≤ k := by simpa using Nat.lt_succ_iff.mp (Nat.lt_of_lt_of_le (Nat.lt_succ_self _) hn)
          have h2 : rest.length ≤ m' := by simpa using Nat.lt_succ_iff.mp (Nat.lt_of_lt_of_le (Nat.lt_succ_self _) hm)
          simp [h, ih m' rest h1 h2]

theorem removeAll_nil (p : Str) : removeAll p [] = [] := rfl

theorem removeAll_cons (p : Str) (c : Char) (rest : Str) :
    removeAll p (c :: rest) =
      if isPre p (c :: rest) && !p.isEmpty then removeAll p (rest.drop (p.length - 1))
      else c :: removeAll p rest := by
  show removeAllF (rest.length + 1) p (c :: rest) = _
  simp only [removeAllF]
  by_cases h : (isPre p (c :: rest) && !p.isEmpty) = true
  · simp only [h, if_true]
    apply removeAllF_congr
    · simp [List.length_drop]
    · exact Nat.le_refl _
  · rw [Bool.not_eq_true] at h
    simp [h, removeAll]

theorem isPre_append (p t : Str) : isPre p (p ++ t) = true := by
  induction p with
  | nil => rfl
  | cons a as ih => simp [isPre, ih]

theorem isPre_iff_take (p : Str) : ∀ s : Str, isPre p s = true ↔ s.take p.length = p := by
  induction p with
  | nil => intro s; simp [isPre]
  | cons a as ih =>
    intro s
    cases s with
    | nil => simp [isPre]
    | cons b bs =>
      simp only [isPre, List.length_cons, List.take_succ_cons, Bool.and_eq_true,
        decide_eq_true_eq, List.cons.injEq, ih]
      constructor
      · rintro ⟨h1, h2⟩; exact ⟨h1.symm, h2⟩
      · rintro ⟨h1, h2⟩; exact ⟨h1.symm, h2⟩

theorem occursIn_nil (p : Str) : occursIn p [] = p.isEmpty := rfl

theorem occursIn_cons (p : Str) (c : Char) (rest : Str) :
    occursIn p (c :: rest) = (isPre p (c :: rest) || occursIn p rest) := rfl

theorem occursIn_append_self (p : Str) (hp : p ≠ []) :
    ∀ s : Str, occursIn p (s ++ p) = true := by
  intro s
  induction s with
  | nil =>
    cases p with
    | nil => exact absurd rfl hp
    | cons a as =>
      have h := isPre_append (a :: as) []
      rw [List.append_nil] at h
      simp [occursIn_cons, h]
  | cons c s' ih =>
    simp [occursIn_cons, ih]

theorem occursIn_append_left_free (a : Char) (q : Str) :
    ∀ (s t : Str), a ∉ s → occursIn (a :: q) (s ++ t) = occursIn (a :: q) t := by
  intro s
  induction s with
  | nil => intro t _; rfl
  | cons c s' ih =>
    intro t hmem
    have hac : a ≠ c := fun h => hmem (h ▸ List.mem_cons_self c s')
    have hs' : a ∉ s' := fun h => hmem (List.mem_cons_of_mem c h)
    simp only [List.cons_append, occursIn_cons, isPre, decide_eq_true_eq]
    rw [ih t hs']
    simp [hac]

theorem removeAll_of_not_occurs (p : Str) :
    ∀ s : Str, occursIn p s = false → removeAll p s = s := by
  intro s
  induction s with
  | nil => intro _; exact removeAll_nil p
  | cons c rest ih =>
    intro h
    rw [occursIn_cons] at h
    have h1 : isPre p (c :: rest) = false := by
      cases hh : isPre p (c :: rest) <;> simp [hh] at h ⊢
    have h2 : occursIn p rest = false := by
      cases hh : occursIn p rest <;> simp [hh] at h ⊢
    rw [removeAll_cons, h1]
    simp [ih h2]

theorem removeAll_prefix_drop (p : Str) (hp : p ≠ []) (s : Str) :
    removeAll p (p ++ s) = removeAll p s := by
  cases p with
  | nil => exact absurd rfl hp
  | cons a as =>
    have hcons : (a :: as) ++ s = a :: (as ++ s) := rfl
    rw [hcons, removeAll_cons]
    have h1 : isPre (a :: as) (a :: (as ++ s)) = true := isPre_append (a :: as) s
    have h2 : ((a :: as).isEmpty : Bool) = false := rfl
    simp only [h1, h2, Bool.not_false, Bool.and_self, if_true]
    have h3 : (a :: as).length - 1 = as.length := by simp
    rw [h3, List.drop_left]

theorem dropLast_append_ne_nil {m : Str} (l : Str) (hm : m ≠ []) :
    (l ++ m).dropLast = l ++ m.dropLast := by
  induction l with
  | nil => simp
  | cons c l' ih =>
    have hne : l' ++ m ≠ [] := by
      intro h
      rcases List.append_eq_nil.mp h with ⟨_, h2⟩
      exact hm h2
    cases hlm : l' ++ m with
    | nil => exact absurd hlm hne
    | cons d t =>
      simp only [List.cons_append, hlm, List.dropLast_cons₂, List.cons.injEq, true_and]
      rw [← hlm, ih]

theorem removeAll_append_self (p : Str) (hp : p ≠ []) :
    ∀ s : Str, occursIn p (s ++ p.dropLast) = false → removeAll p (s ++ p) = s := by
  intro s
  induction s with
  | nil =>
    intro _
    have h := removeAll_prefix_drop p hp []
    rw [List.append_nil] at h
    simpa [removeAll_nil] using h
  | cons c s' ih =>
    intro h
    rw [List.cons_append, occursIn_cons] at h
    have h1 : isPre p (c :: (s' ++ p.dropLast)) = false := by
      cases hh : isPre p (c :: (s' ++ p.dropLast)) <;> simp [hh] at h ⊢
    have h2 : occursIn p (s' ++ p.dropLast) = false := by
      cases hh : occursIn p (s' ++ p.dropLast) <;> simp [hh] at h ⊢
    have hpre : isPre p (c :: (s' ++ p)) = false := by
      cases hh : isPre p (c :: (s' ++ p)) with
      | false => rfl
      | true =>
        exfalso
        have htake : (c :: (s' ++ p)).take p.length = p := (isPre_iff_take p _).mp hh
        have hdl : (c :: (s' ++ p)).dropLast = c :: (s' ++ p.dropLast) := by
          have := dropLast_append_ne_nil (c :: s') hp
          simpa using this
        have hlen : p.length ≤ (c :: (s' ++ p)).length - 1 := by
          simp [List.length_cons, List.length_append]
        have htake2 : (c :: (s' ++ p.dropLast)).take p.length = p := by
          rw [← hdl, List.dropLast_eq_take, List.take_take]
          rw [Nat.min_eq_left hlen] at *
          exact htake
        have : isPre p (c :: (s' ++ p.dropLast)) = true := (isPre_iff_take p _).mpr htake2
        rw [this] at h1
        exact Bool.true_eq_false.mp h1
    rw [List.cons_append, removeAll_cons, hpre]
    simp [ih h2]

theorem xsMark_eq : xsMark = '_' :: ("xsimd").data := rfl

theorem nxsMark_eq : nxsMark = '_' :: ("noxsimd").data := rfl

theorem occursIn_cid_marker (cid : Str) (hu : '_' ∉ cid) (m : Str) (t : Str) :
    occursIn ('_' :: m) (cid ++ t) = occursIn ('_' :: m) t :=
  occursIn_append_left_free '_' m cid t hu

theorem pbn_xs (cid : Str) (hu : '_' ∉ cid)
    (hb : occursIn bldMark (cid ++ xsMark) = false) :
    parse_build_name (bldMark ++ cid ++ xsMark) = (cid, ("xsimd").data) := by
  unfold parse_build_name
  have hassoc : bldMark ++ cid ++ xsMark = bldMark ++ (cid ++ xsMark) := List.append_assoc _ _ _
  rw [hassoc, removeAll_prefix_drop bldMark (by decide) (cid ++ xsMark),
    removeAll_of_not_occurs bldMark (cid ++ xsMark) hb]
  have hocc : occursIn xsMark (cid ++ xsMark) = true := occursIn_append_self xsMark (by decide) cid
  simp only [hocc, if_true]
  have hrm : removeAll xsMark (cid ++ xsMark) = cid := by
    apply removeAll_append_self xsMark (by decide) cid
    rw [xsMark_eq]
    rw [occursIn_cid_marker cid hu]
    decide
  rw [hrm]

theorem pbn_nxs (cid : Str) (hu : '_' ∉ cid)
    (hb : occursIn bldMark (cid ++ nxsMark) = false) :
    parse_build_name (bldMark ++ cid ++ nxsMark) = (cid, ("noxsimd").data) := by
  unfold parse_build_name
  have hassoc : bldMark ++ cid ++ nxsMark = bldMark ++ (cid ++ nxsMark) := List.append_assoc _ _ _
  rw [hassoc, removeAll_prefix_drop bldMark (by decide) (cid ++ nxsMark),
    removeAll_of_not_occurs bldMark (cid ++ nxsMark) hb]
  have hocc : occursIn xsMark (cid ++ nxsMark) = false := by
    rw [xsMark_eq, occursIn_cid_marker cid hu]
    decide
  simp only [hocc, Bool.false_eq_true, if_false]
  have hrm : removeAll nxsMark (cid ++ nxsMark) = cid := by
    apply removeAll_append_self nxsMark (by decide) cid
    rw [nxsMark_eq, occursIn_cid_marker cid hu]
    decide
  rw [hrm]

theorem pbn_bare (cid : Str) (hu : '_' ∉ cid)
    (hb : occursIn bldMark cid = false) :
    parse_build_name (bldMark ++ cid) = (cid, ("noxsimd").data) := by
  unfold parse_build_name
  rw [removeAll_prefix_drop bldMark (by decide) cid,
    removeAll_of_not_occurs bldMark cid hb]
  have hcid : cid = cid ++ [] := (List.append_nil cid).symm
  have hocc : occursIn xsMark cid = false := by
    rw [hcid, xsMark_eq, occursIn_cid_marker cid hu]
    decide
  simp only [hocc, Bool.false_eq_true, if_false]
  have hocc2 : occursIn nxsMark cid = false := by
    rw [hcid, nxsMark_eq, occursIn_cid_marker cid hu]
    decide
  rw [removeAll_of_not_occurs nxsMark cid hocc2]

/-- C6: for every build identifier of the form `build_<compiler_id>`
optionally followed by the marker `_xsimd` or `_noxsimd` (with a
well-formed compiler id: no underscore, and no stray `build_` occurrence),
`parse_build_name` returns the compiler id, and re-attaching the
`build_` prefix and the marker corresponding to the returned mode yields
an identifier that decomposes to the same pair, i.e. one equivalent to
the original. -/
theorem c6_roundtrip (cid suffix : Str)
    (hu : '_' ∉ cid)
    (hb0 : occursIn bldMark cid = false)
    (hb1 : occursIn bldMark (cid ++ xsMark) = false)
    (hb2 : occursIn bldMark (cid ++ nxsMark) = false)
    (hs : suffix = [] ∨ suffix = xsMark ∨ suffix = nxsMark) :
    (parse_build_name (bldMark ++ cid ++ suffix)).1 = cid ∧
    parse_build_name (recombine (parse_build_name (bldMark ++ cid ++ suffix))) =
      parse_build_name (bldMark ++ cid ++ suffix) := by
  rcases hs with hs | hs | hs
  · subst hs
    rw [List.append_nil, pbn_bare cid hu hb0]
    refine ⟨rfl, ?_⟩
    show parse_build_name (bldMark ++ cid ++ markerOf (("noxsimd").data)) = _
    have hmk : markerOf (("noxsimd").data) = nxsMark := rfl
    rw [hmk, pbn_nxs cid hu hb2]
  · subst hs
    rw [pbn_xs cid hu hb1]
    refine ⟨rfl, ?_⟩
    show parse_build_name (bldMark ++ cid ++ markerOf (("xsimd").data)) = _
    have hmk : markerOf (("xsimd").data) = xsMark := rfl
    rw [hmk, pbn_xs cid hu hb1]
  · subst hs
    rw [pbn_nxs cid hu hb2]
    refine ⟨rfl, ?_⟩
    show parse_build_name (bldMark ++ cid ++ markerOf (("noxsimd").data)) = _
    have hmk : markerOf (("noxsimd").data) = nxsMark := rfl
    rw [hmk, pbn_nxs cid hu hb2]

/-- C6 witness: the decomposition round-trip at the concrete bare build
identifier `build_gcc14`. -/
theorem c6_roundtrip_witness :
    (parse_build_name (bldMark ++ ("gcc14").data ++ [])).1 = ("gcc14").data ∧
    parse_build_name (recombine (parse_build_name (bldMark ++ ("gcc14").data ++ []))) =
      parse_build_name (bldMark ++ ("gcc14").data ++ []) :=
  c6_roundtrip (("gcc14").data) [] (by decide) (by decide) (by decide) (by decide)
    (Or.inl rfl)

theorem winStep_foldl (data : BuildData) :
    ∀ (l : List Nat) (acc : Nat × Nat × ℚ),
      l.foldl (winStep data) acc =
        (acc.1 + (l.filter (winB data)).length,
         acc.2.1 + (l.filter (loseB data)).length,
         acc.2.2 + ((l.filter (winB data)).map (ratAt data)).sum) := by
  intro l
  induction l with
  | nil => intro acc; simp
  | cons s rest ih =>
    intro acc
    rw [List.foldl_cons, ih]
    rcases hl : lookupA s data with _ | sd
    · have hw : winB data s = false := by simp [winB, hl]
      have ho : loseB data s = false := by simp [loseB, hl]
      have hstep : winStep data acc s = acc := by simp [winStep, hl]
      simp [hstep, List.filter_cons, hw, ho]
    · by_cases hg : 0 < xtOf sd ∧ 0 < fxOf sd
      · by_cases hlt : fxOf sd < xtOf sd
        · have hw : winB data s = true := by simp [winB, hl, hg, hlt]
          have ho : loseB data s = false := by simp [loseB, hl, hlt]
          have hstep : winStep data acc s = (acc.1 + 1, acc.2.1, acc.2.2 + xtOf sd / fxOf sd) := by
            simp [winStep, hl, hg, hlt]
          have hrat : ratAt data s = xtOf sd / fxOf sd := by simp [ratAt, hl]
          simp only [hstep, List.filter_cons, hw, ho, if_true, Bool.false_eq_true, if_false,
            List.length_cons, List.map_cons, List.sum_cons, hrat, Prod.mk.injEq]
          refine ⟨?_, ?_, ?_⟩ <;> first | omega | ring
        · have hw : winB data s = false := by simp [winB, hl, hlt]
          have ho : loseB data s = true := by simp [loseB, hl, hg, hlt]
          have hstep : winStep data acc s = (acc.1, acc.2.1 + 1, acc.2.2) := by
            simp [winStep, hl, hg, hlt]
          simp only [hstep, List.filter_cons, hw, ho, if_true, Bool.false_eq_true, if_false,
            List.length_cons, Prod.mk.injEq]
          refine ⟨?_, ?_, ?_⟩ <;> first | omega | ring
      · have hw : winB data s = false := by simp [winB, hl, hg]
        have ho : loseB data s = false := by simp [loseB, hl, hg]
        have hstep : winStep data acc s = acc := by simp [winStep, hl, hg]
        simp [hstep, List.filter_cons, hw, ho]

theorem winSummary_eq (data : BuildData) :
    winSummary data =
      ((sizesList.filter (winB data)).length,
       (sizesList.filter (loseB data)).length,
       ((sizesList.filter (winB data)).map (ratAt data)).sum) := by
  unfold winSummary
  rw [winStep_foldl data sizesList (0, 0, 0)]
  simp

theorem filter_win_lose_split (data : BuildData) :
    ∀ l : List Nat,
      (l.filter (winB data)).length + (l.filter (loseB data)).length =
        (l.filter (rowGuard data)).length := by
  intro l
  induction l with
  | nil => simp
  | cons s rest ih =>
    rcases hl : lookupA s data with _ | sd
    · have hw : winB data s = false := by simp [winB, hl]
      have ho : loseB data s = false := by simp [loseB, hl]
      have hr : rowGuard data s = false := by simp [rowGuard, hl]
      simp [List.filter_cons, hw, ho, hr, ih]
    · by_cases hg : 0 < xtOf sd ∧ 0 < fxOf sd
      · have hr : rowGuard data s = true := by simp [rowGuard, hl, hg]
        by_cases hlt : fxOf sd < xtOf sd
        · have hw : winB data s = true := by simp [winB, hl, hg, hlt]
          have ho : loseB data s = false := by simp [loseB, hl, hlt]
          simp only [List.filter_cons, hw, ho, hr, if_true, Bool.false_eq_true, if_false,
            List.length_cons]
          omega
        · have hw : winB data s = false := by simp [winB, hl, hlt]
          have ho : loseB data s = true := by simp [loseB, hl, hg, hlt]
          simp only [List.filter_cons, hw, ho, hr, if_true, Bool.false_eq_true, if_false,
            List.length_cons]
          omega
      · have hw : winB data s = false := by simp [winB, hl, hg]
        have ho : loseB data s = false := by simp [loseB, hl, hg]
        have hr : rowGuard data s = false := by simp [rowGuard, hl, hg]
        simp [List.filter_cons, hw, ho, hr, ih]

/-- C3 counterexample: in a table where both container types have a
recorded measurement at size 6 but the `fixed` time is `0`, the two win
counts sum to `0` although one size has both measurements recorded, so
the claimed equality fails. -/
theorem c3_counterexample :
    (winSummary [(6, [(ContainerType.xtensor, (4 : ℚ)), (ContainerType.fixed, 0)])]).1 +
      (winSummary [(6, [(ContainerType.xtensor, (4 : ℚ)), (ContainerType.fixed, 0)])]).2.1 = 0 ∧
    (sizesList.filter
      (bothRec [(6, [(ContainerType.xtensor, (4 : ℚ)), (ContainerType.fixed, 0)])])).length = 1 ∧
    (0 : Nat) ≠ 1 := by decide

/-- C3 (amended): for every build data, the alternate-win count plus the
primary-win count equals the number of sizes in the fixed enumeration at
which the size is recorded and both looked-up times (missing containers
defaulting to 0) are strictly positive. -/
theorem c3_win_counts (data : BuildData) :
    (winSummary data).1 + (winSummary data).2.1 =
      (sizesList.filter (rowGuard data)).length := by
  rw [winSummary_eq]
  exact filter_win_lose_split data sizesList

/-- C8: the reported average speedup is the accumulated sum of
`xtensor_time / fixed_time` ratios over the `fixed`-winning sizes divided
by the `fixed`-win count, and is exactly `0` when that count is zero (the
guarded branch). -/
theorem c8_avg_speedup (data : BuildData) :
    avgSpeedup data =
      if (sizesList.filter (winB data)).length = 0 then 0
      else ((sizesList.filter (winB data)).map (ratAt data)).sum /
        ((sizesList.filter (winB data)).length : ℚ) := by
  unfold avgSpeedup
  rw [winSummary_eq]
  rcases Nat.eq_zero_or_pos (sizesList.filter (winB data)).length with h | h
  · simp [h]
  · have h0 : ¬(sizesList.filter (winB data)).length = 0 := Nat.pos_iff_ne_zero.mp h
    simp [h, h0]

theorem compRowFor_none (data : BuildData) (s : Nat)
    (hl : lookupA s data = none) : compRowFor data s = none := by
  unfold compRowFor
  rw [hl]

theorem compRowFor_some_sd (data : BuildData) (s : Nat) (sd : SD)
    (hl : lookupA s data = some sd) :
    compRowFor data s =
      if 0 < xtOf sd ∧ 0 < fxOf sd then some (mkRow s sd) else none := by
  unfold compRowFor
  rw [hl]

theorem compRowFor_size (data : BuildData) (s : Nat) (r : CompRow)
    (h : compRowFor data s = some r) : r.size = s := by
  rcases hl : lookupA s data with _ | sd
  · rw [compRowFor_none data s hl] at h; exact absurd h (by simp)
  · rw [compRowFor_some_sd data s sd hl] at h
    by_cases hg : 0 < xtOf sd ∧ 0 < fxOf sd
    · rw [if_pos hg] at h
      have := Option.some.inj h
      rw [← this]
      rfl
    · rw [if_neg hg] at h
      exact absurd h (by simp)

/-- C2 counterexample: at size 5 both container types have a recorded
measurement (`xtensor ↦ 0`, `fixed ↦ 3`), yet the comparison reporter
emits no row, so a row can be omitted even when no measurement is
missing. -/
theorem c2_counterexample :
    lookupA 5 [(5, [(ContainerType.xtensor, (0 : ℚ)), (ContainerType.fixed, 3)])] =
      some [(ContainerType.xtensor, (0 : ℚ)), (ContainerType.fixed, 3)] ∧
    lookupA ContainerType.xtensor [(ContainerType.xtensor, (0 : ℚ)), (ContainerType.fixed, 3)] =
      some 0 ∧
    lookupA ContainerType.fixed [(ContainerType.xtensor, (0 : ℚ)), (ContainerType.fixed, 3)] =
      some 3 ∧
    5 ∈ sizesList ∧
    compRowFor [(5, [(ContainerType.xtensor, (0 : ℚ)), (ContainerType.fixed, 3)])] 5 = none ∧
    comparisonRows [(5, [(ContainerType.xtensor, (0 : ℚ)), (ContainerType.fixed, 3)])] = [] := by
  decide

/-- C2 (amended): for every size of the fixed enumeration whose key is
present in the build data, the comparison reporter emits the row with
ratio `xtensor_time / fixed_time` exactly when both looked-up times
(missing containers defaulting to 0) are strictly positive; otherwise no
row for that size is emitted — so a recorded nonpositive time suppresses
the row just like a missing measurement. -/
theorem c2_rows (data : BuildData) (s : Nat) (hs : s ∈ sizesList) (sd : SD)
    (hsd : lookupA s data = some sd) :
    (0 < xtOf sd ∧ 0 < fxOf sd →
      compRowFor data s = some (mkRow s sd) ∧
      (mkRow s sd).rat = xtOf sd / fxOf sd ∧
      mkRow s sd ∈ comparisonRows data) ∧
    (¬(0 < xtOf sd ∧ 0 < fxOf sd) →
      compRowFor data s = none ∧ ∀ r ∈ comparisonRows data, r.size ≠ s) := by
  constructor
  · intro hg
    have h1 : compRowFor data s = some (mkRow s sd) := by
      rw [compRowFor_some_sd data s sd hsd, if_pos hg]
    exact ⟨h1, rfl, List.mem_filterMap.mpr ⟨s, hs, h1⟩⟩
  · intro hg
    have h1 : compRowFor data s = none := by
      rw [compRowFor_some_sd data s sd hsd, if_neg hg]
    refine ⟨h1, ?_⟩
    intro r hr hsize
    rcases List.mem_filterMap.mp hr with ⟨s', _, hr'⟩
    have hsz : r.size = s' := compRowFor_size data s' r hr'
    rw [hsize] at hsz
    rw [← hsz] at hr'
    rw [h1] at hr'
    exact Option.noConfusion hr'

/-- C2 witness: the amended row characterisation evaluated on concrete
data with times 3 and 2 at size 4. -/
theorem c2_rows_witness :
    compRowFor [(4, [(ContainerType.xtensor, (3 : ℚ)), (ContainerType.fixed, 2)])] 4 =
      some (mkRow 4 [(ContainerType.xtensor, (3 : ℚ)), (ContainerType.fixed, 2)]) ∧
    (mkRow 4 [(ContainerType.xtensor, (3 : ℚ)), (ContainerType.fixed, 2)]).rat =
      xtOf [(ContainerType.xtensor, (3 : ℚ)), (ContainerType.fixed, 2)] /
        fxOf [(ContainerType.xtensor, (3 : ℚ)), (ContainerType.fixed, 2)] ∧
    mkRow 4 [(ContainerType.xtensor, (3 : ℚ)), (ContainerType.fixed, 2)] ∈
      comparisonRows [(4, [(ContainerType.xtensor, (3 : ℚ)), (ContainerType.fixed, 2)])] :=
  (c2_rows [(4, [(ContainerType.xtensor, (3 : ℚ)), (ContainerType.fixed, 2)])] 4 (by decide)
    [(ContainerType.xtensor, (3 : ℚ)), (ContainerType.fixed, 2)] (by decide)).1 (by decide)

theorem otherCT_otherCT (ct : ContainerType) : otherCT (otherCT ct) = ct := by
  cases ct <;> rfl

theorem lookupA_map_val {α β γ : Type} [DecidableEq α] (g : β → γ) (k : α) :
    ∀ l : List (α × β),
      lookupA k (l.map (fun p => (p.1, g p.2))) = (lookupA k l).map g := by
  intro l
  induction l with
  | nil => rfl
  | cons p rest ih =>
    simp only [List.map_cons, lookupA]
    by_cases h : p.1 = k
    · simp [h]
    · simp [h, ih]

theorem lookupA_swapSD (ct : ContainerType) :
    ∀ sd : SD, lookupA ct (swapSD sd) = lookupA (otherCT ct) sd := by
  intro sd
  induction sd with
  | nil => rfl
  | cons p rest ih =>
    simp only [swapSD, List.map_cons, lookupA] at ih ⊢
    by_cases h : otherCT p.1 = ct
    · have h2 : p.1 = otherCT ct := by rw [← h, otherCT_otherCT]
      simp [h, h2, otherCT_otherCT]
    · have h2 : ¬p.1 = otherCT ct := fun hh => h (by rw [hh, otherCT_otherCT])
      simp [h, h2, ih, otherCT_otherCT]

theorem xtOf_swapSD (sd : SD) : xtOf (swapSD sd) = fxOf sd := by
  unfold xtOf fxOf
  rw [lookupA_swapSD]
  rfl

theorem fxOf_swapSD (sd : SD) : fxOf (swapSD sd) = xtOf sd := by
  unfold xtOf fxOf
  rw [lookupA_swapSD]
  rfl

/-- Concrete per-size data with equal times used to refute C4. -/
def sd7ex : SD := [(ContainerType.xtensor, (2 : ℚ)), (ContainerType.fixed, 2)]

/-- Concrete build data with equal times at size 7 used to refute C4. -/
def d7ex : BuildData := [(7, sd7ex)]

/-- C4 counterexample: with equal recorded times (2, 2) a row is emitted
and the winner is `xtensor` in both the original and the swapped
orientation, so swapping the two values does not invert the reported
winner. -/
theorem c4_counterexample :
    compRowFor d7ex 7 = some (mkRow 7 sd7ex) ∧
    (mkRow 7 sd7ex).winner = ContainerType.xtensor ∧
    compRowFor (swapData d7ex) 7 = some (mkRow 7 (swapSD sd7ex)) ∧
    (mkRow 7 (swapSD sd7ex)).winner = ContainerType.xtensor ∧
    ContainerType.xtensor ≠ otherCT ContainerType.xtensor := by
  have hx : xtOf sd7ex = 2 := by decide
  have hf : fxOf sd7ex = 2 := by decide
  have hx' : xtOf (swapSD sd7ex) = 2 := by decide
  have hf' : fxOf (swapSD sd7ex) = 2 := by decide
  have hg : 0 < xtOf sd7ex ∧ 0 < fxOf sd7ex := by rw [hx, hf]; norm_num
  have hg' : 0 < xtOf (swapSD sd7ex) ∧ 0 < fxOf (swapSD sd7ex) := by rw [hx', hf']; norm_num
  have hrow := compRowFor_some_sd d7ex 7 sd7ex (by decide)
  rw [if_pos hg] at hrow
  have hrow' := compRowFor_some_sd (swapData d7ex) 7 (swapSD sd7ex) (by decide)
  rw [if_pos hg'] at hrow'
  have hw : (mkRow 7 sd7ex).winner = ContainerType.xtensor := by
    show (if 1 < xtOf sd7ex / fxOf sd7ex then ContainerType.fixed
        else ContainerType.xtensor) = ContainerType.xtensor
    rw [hx, hf]
    norm_num
  have hw' : (mkRow 7 (swapSD sd7ex)).winner = ContainerType.xtensor := by
    show (if 1 < xtOf (swapSD sd7ex) / fxOf (swapSD sd7ex) then ContainerType.fixed
        else ContainerType.xtensor) = ContainerType.xtensor
    rw [hx', hf']
    norm_num
  exact ⟨hrow, hw, hrow', hw', by decide⟩

/-- C4 (amended): for every emitted comparison row, swapping the two
recorded values still emits a row, with the two times exchanged and the
reported ratio inverted; the reported winner is inverted whenever the two
times differ, while equal times yield the winner `xtensor` (the primary)
in both orientations. -/
theorem c4_swap (data : BuildData) (s : Nat) (r : CompRow)
    (h : compRowFor data s = some r) :
    ∃ r', compRowFor (swapData data) s = some r' ∧
      r'.xt = r.fx ∧ r'.fx = r.xt ∧ r'.rat = 1 / r.rat ∧
      (r.xt ≠ r.fx → r'.winner = otherCT r.winner) ∧
      (r.xt = r.fx → r'.winner = ContainerType.xtensor ∧ r.winner = ContainerType.xtensor) := by
  rcases hl : lookupA s data with _ | sd
  · rw [compRowFor_none data s hl] at h; exact absurd h (by simp)
  rw [compRowFor_some_sd data s sd hl] at h
  by_cases hg : 0 < xtOf sd ∧ 0 < fxOf sd
  swap
  · rw [if_neg hg] at h; exact absurd h (by simp)
  rw [if_pos hg] at h
  have hr : r = mkRow s sd := (Option.some.inj h).symm
  have hsw : lookupA s (swapData data) = some (swapSD sd) := by
    unfold swapData
    rw [lookupA_map_val, hl]
    rfl
  have hg' : 0 < xtOf (swapSD sd) ∧ 0 < fxOf (swapSD sd) := by
    rw [xtOf_swapSD, fxOf_swapSD]
    exact ⟨hg.2, hg.1⟩
  refine ⟨mkRow s (swapSD sd), ?_, ?_, ?_, ?_, ?_, ?_⟩
  · rw [compRowFor_some_sd (swapData data) s (swapSD sd) hsw, if_pos hg']
  · rw [hr]
    show xtOf (swapSD sd) = fxOf sd
    exact xtOf_swapSD sd
  · rw [hr]
    show fxOf (swapSD sd) = xtOf sd
    exact fxOf_swapSD sd
  · rw [hr]
    show xtOf (swapSD sd) / fxOf (swapSD sd) = 1 / (xtOf sd / fxOf sd)
    rw [xtOf_swapSD, fxOf_swapSD, one_div_div]
  · intro hne
    rw [hr] at hne ⊢
    have hxy : xtOf sd ≠ fxOf sd := hne
    show (if 1 < xtOf (swapSD sd) / fxOf (swapSD sd) then ContainerType.fixed
        else ContainerType.xtensor) =
      otherCT (if 1 < xtOf sd / fxOf sd then ContainerType.fixed else ContainerType.xtensor)
    rw [xtOf_swapSD, fxOf_swapSD]
    rcases lt_or_gt_of_ne hxy with hlt | hlt
    · have h1 : 1 < fxOf sd / xtOf sd := (one_lt_div hg.1).mpr hlt
      have h2 : ¬1 < xtOf sd / fxOf sd := by
        rw [not_lt]
        exact le_of_lt ((div_lt_one hg.2).mpr hlt)
      rw [if_pos h1, if_neg h2]
      rfl
    · have h1 : ¬1 < fxOf sd / xtOf sd := by
        rw [not_lt]
        exact le_of_lt ((div_lt_one hg.1).mpr hlt)
      have h2 : 1 < xtOf sd / fxOf sd := (one_lt_div hg.2).mpr hlt
      rw [if_neg h1, if_pos h2]
      rfl
  · intro heq
    rw [hr] at heq ⊢
    have hxy : xtOf sd = fxOf sd := heq
    have hone : xtOf sd / fxOf sd = 1 := by
      rw [hxy]
      exact div_self (ne_of_gt hg.2)
    have hone' : xtOf (swapSD sd) / fxOf (swapSD sd) = 1 := by
      rw [xtOf_swapSD, fxOf_swapSD, ← hxy]
      exact div_self (ne_of_gt hg.1)
    constructor
    · show (if 1 < xtOf (swapSD sd) / fxOf (swapSD sd) then ContainerType.fixed
          else ContainerType.xtensor) = ContainerType.xtensor
      rw [hone']
      simp
    · show (if 1 < xtOf sd / fxOf sd then ContainerType.fixed
          else ContainerType.xtensor) = ContainerType.xtensor
      rw [hone]
      simp

/-- Concrete per-size data with times 5 and 2 used in the C4 witness. -/
def sd8ex : SD := [(ContainerType.xtensor, (5 : ℚ)), (ContainerType.fixed, 2)]

/-- Concrete build data at size 8 used in the C4 witness. -/
def d8ex : BuildData := [(8, sd8ex)]

/-- C4 witness: the amended swap property evaluated on concrete data with
times 5 and 2 at size 8. -/
theorem c4_swap_witness :
    ∃ r', compRowFor (swapData d8ex) 8 = some r' ∧
      r'.xt = (mkRow 8 sd8ex).fx ∧
      r'.fx = (mkRow 8 sd8ex).xt ∧
      r'.rat = 1 / (mkRow 8 sd8ex).rat ∧
      ((mkRow 8 sd8ex).xt ≠ (mkRow 8 sd8ex).fx →
        r'.winner = otherCT (mkRow 8 sd8ex).winner) ∧
      ((mkRow 8 sd8ex).xt = (mkRow 8 sd8ex).fx →
        r'.winner = ContainerType.xtensor ∧
        (mkRow 8 sd8ex).winner = ContainerType.xtensor) := by
  apply c4_swap d8ex 8 (mkRow 8 sd8ex)
  have hg : 0 < xtOf sd8ex ∧ 0 < fxOf sd8ex := by
    have hx : xtOf sd8ex = 5 := by decide
    have hf : fxOf sd8ex = 2 := by decide
    rw [hx, hf]
    norm_num
  have hrow := compRowFor_some_sd d8ex 8 sd8ex (by decide)
  rw [if_pos hg] at hrow
  exact hrow

/-- Decidable equality for the results table (instance search does not
unfold the nested abbreviation on its own). -/
instance tableDecEq : DecidableEq Table := List.hasDecEq

/-- Decidable equality for parse results, used to evaluate the parser at
concrete inputs. -/
instance exceptDecEq {e a : Type} [DecidableEq e] [DecidableEq a] :
    DecidableEq (Except e a) := fun x y =>
  match x, y with
  | Except.error u, Except.error v =>
    if h : u = v then Decidable.isTrue (by rw [h]) else Decidable.isFalse (fun hh => h (by cases hh; rfl))
  | Except.ok u, Except.ok v =>
    if h : u = v then Decidable.isTrue (by rw [h]) else Decidable.isFalse (fun hh => h (by cases hh; rfl))
  | Except.error _, Except.ok _ => Decidable.isFalse (fun hh => Except.noConfusion hh)
  | Except.ok _, Except.error _ => Decidable.isFalse (fun hh => Except.noConfusion hh)

/-- C5 counterexample: a data line (it begins with a quote, a build
context is set) whose raw name `other_double_4` does not match the
pattern nevertheless raises a fatal `ValueError`, because its fourth
comma-separated field `oops` is converted with `float` before the name
pattern is tested — the line is not silently discarded regardless of the
other fields. -/
theorem c5_counterexample :
    getIdx (("\"other_double_4\",100,1,oops").data) 0 = some '"' ∧
    matchName (stripQuotes
      ((splitComma (("\"other_double_4\",100,1,oops").data)).headD [])) = none ∧
    processLine (some (("build_gcc14_xsimd").data), ([] : Table))
        (("\"other_double_4\",100,1,oops").data) =
      Except.error ParseErr.valueErr := by decide

/-- C5 (amended): a data line (quote-initial, build context set) whose
fourth field does convert with `float` and whose raw name does not match
the two-variant pattern is silently discarded: the parser returns
success and the table is unchanged.  (When the fourth field is missing
or malformed the line instead raises a fatal error, even though its name
would not match.) -/
theorem c5_nonmatching_discard (b : Str) (tbl : Table) (line tail f3 : Str) (t : ℚ)
    (hhdr : isPre hdrPre (stripWS line) = false)
    (hq : stripWS line = '"' :: tail)
    (hf : getIdx (splitComma (stripWS line)) 3 = some f3)
    (ht : parseFloat f3 = some t)
    (hm : matchName (stripQuotes ((splitComma (stripWS line)).headD [])) = none) :
    processLine (some b, tbl) line = Except.ok (some b, tbl) := by
  unfold processLine
  rw [hq] at hhdr hf hm
  rw [hq]
  simp only [hhdr, Bool.false_eq_true, if_false, hf, ht, hm]

/-- C5 witness: the silent-discard case at a concrete non-matching line
with a well-formed numeric fourth field. -/
theorem c5_nonmatching_discard_witness :
    processLine (some (("build_gcc14_xsimd").data), ([] : Table))
        (("\"other_double_4\",100,1,250.5").data) =
      Except.ok (some (("build_gcc14_xsimd").data), ([] : Table)) := by
  apply c5_nonmatching_discard (("build_gcc14_xsimd").data) ([] : Table)
    (("\"other_double_4\",100,1,250.5").data)
    (("other_double_4\",100,1,250.5").data) (("250.5").data) ((501 : ℚ)/2)
  · decide
  · decide
  · decide
  · have h1 : digitsToNat ['2', '5', '0'] = 250 := by decide
    have h2 : digitsToNat ['5'] = 5 := by decide
    simp +decide [parseFloat]
    norm_num [h1, h2]
  · decide

/-- The pattern head matched for each container variant. -/
def namePre : ContainerType → Str
  | ContainerType.xtensor => xtPre
  | ContainerType.fixed => fxPre

theorem takeWhile_append_sat (p : Char → Bool) :
    ∀ (ds rest : Str), (∀ c ∈ ds, p c = true) →
      (rest = [] ∨ ∃ c rest', rest = c :: rest' ∧ p c = false) →
      (ds ++ rest).takeWhile p = ds := by
  intro ds
  induction ds with
  | nil =>
    intro rest _ hrest
    rcases hrest with h | ⟨c, rest', hr, hc⟩
    · subst h; rfl
    · subst hr
      simp [List.takeWhile_cons, hc]
  | cons d ds' ih =>
    intro rest hall hrest
    have hd : p d = true := hall d (List.mem_cons_self d ds')
    have hall' : ∀ c ∈ ds', p c = true := fun c hc => hall c (List.mem_cons_of_mem d hc)
    simp [List.takeWhile_cons, hd, ih rest hall' hrest]

theorem matchName_pre (ct : ContainerType) (ds rest : Str)
    (hds : ds ≠ [])
    (hdig : ∀ c ∈ ds, c.isDigit = true)
    (hrest : rest = [] ∨ ∃ c rest', rest = c :: rest' ∧ c.isDigit = false) :
    matchName (namePre ct ++ ds ++ rest) = some (ct, digitsToNat ds) := by
  have hne : ds.isEmpty = false := by
    cases ds with
    | nil => exact absurd rfl hds
    | cons a t => rfl
  have htake : (ds ++ rest).takeWhile Char.isDigit = ds :=
    takeWhile_append_sat Char.isDigit ds rest hdig hrest
  cases ct with
  | xtensor =>
    have hassoc : namePre ContainerType.xtensor ++ ds ++ rest = xtPre ++ (ds ++ rest) := by
      simp [namePre, List.append_assoc]
    rw [hassoc]
    unfold matchName
    have h1 : isPre xtPre (xtPre ++ (ds ++ rest)) = true := isPre_append _ _
    simp only [h1, if_true, List.drop_left, htake, hne, Bool.false_eq_true, if_false]
  | fixed =>
    have hassoc : namePre ContainerType.fixed ++ ds ++ rest = fxPre ++ (ds ++ rest) := by
      simp [namePre, List.append_assoc]
    rw [hassoc]
    have hx : isPre xtPre (fxPre ++ (ds ++ rest)) = false := by
      have e1 : fxPre ++ (ds ++ rest) = 'f' :: (("ixed_double_").data ++ (ds ++ rest)) := rfl
      have e2 : xtPre = 'x' :: ("tensor_double_").data := rfl
      rw [e1, e2]
      simp only [isPre]
      rw [show (decide (('x' : Char) = 'f')) = false from by decide]
      simp
    unfold matchName
    have h1 : isPre fxPre (fxPre ++ (ds ++ rest)) = true := isPre_append _ _
    simp only [hx, Bool.false_eq_true, if_false, h1, if_true, List.drop_left, htake, hne]

/-- C9: the name match is anchored at the start only: a data line (with a
build context and a convertible fourth field) whose raw name is the
pattern head of either variant followed by a nonempty digit run and then
arbitrary non-digit-initial trailing characters is recorded in the table
under that container type and the value of the leading digits. -/
theorem c9_anchored_match (b : Str) (tbl : Table) (line tail ds rest f3 : Str) (t : ℚ)
    (ct : ContainerType)
    (hhdr : isPre hdrPre (stripWS line) = false)
    (hq : stripWS line = '"' :: tail)
    (hf : getIdx (splitComma (stripWS line)) 3 = some f3)
    (ht : parseFloat f3 = some t)
    (hname : stripQuotes ((splitComma (stripWS line)).headD []) = namePre ct ++ ds ++ rest)
    (hds : ds ≠ [])
    (hdig : ∀ c ∈ ds, c.isDigit = true)
    (hrest : rest = [] ∨ ∃ c rest', rest = c :: rest' ∧ c.isDigit = false) :
    processLine (some b, tbl) line =
      Except.ok (some b, insertMeas tbl b (digitsToNat ds) ct t) := by
  have hm : matchName (stripQuotes ((splitComma (stripWS line)).headD [])) =
      some (ct, digitsToNat ds) := by
    rw [hname]
    exact matchName_pre ct ds rest hds hdig hrest
  unfold processLine
  rw [hq] at hhdr hf hm
  rw [hq]
  simp only [hhdr, Bool.false_eq_true, if_false, hf, ht, hm]

/-- C9 witness: the data line with name `xtensor_double_4_extra` is
stored under size 4 and container `xtensor` despite the trailing
characters. -/
theorem c9_anchored_match_witness :
    processLine (some (("build_gcc14_xsimd").data), ([] : Table))
        (("\"xtensor_double_4_extra\",100,1,250.5").data) =
      Except.ok (some (("build_gcc14_xsimd").data),
        insertMeas ([] : Table) (("build_gcc14_xsimd").data) (digitsToNat ['4'])
          ContainerType.xtensor ((501 : ℚ)/2)) := by
  apply c9_anchored_match (("build_gcc14_xsimd").data) ([] : Table)
    (("\"xtensor_double_4_extra\",100,1,250.5").data)
    (("xtensor_double_4_extra\",100,1,250.5").data)
    ['4'] (("_extra").data) (("250.5").data) ((501 : ℚ)/2) ContainerType.xtensor
  · decide
  · decide
  · decide
  · have h1 : digitsToNat ['2', '5', '0'] = 250 := by decide
    have h2 : digitsToNat ['5'] = 5 := by decide
    simp +decide [parseFloat]
    norm_num [h1, h2]
  · decide
  · decide
  · decide
  · exact Or.inr ⟨'_', ("extra").data, by decide⟩

theorem processLine_data (b : Str) (tbl : Table) (line tail f3 : Str) (t : ℚ)
    (cs : ContainerType × Nat)
    (hhdr : isPre hdrPre (stripWS line) = false)
    (hq : stripWS line = '"' :: tail)
    (hf : getIdx (splitComma (stripWS line)) 3 = some f3)
    (ht : parseFloat f3 = some t)
    (hm : matchName (stripQuotes ((splitComma (stripWS line)).headD [])) = some cs) :
    processLine (some b, tbl) line = Except.ok (some b, insertMeas tbl b cs.2 cs.1 t) := by
  unfold processLine
  rw [hq] at hhdr hf hm
  rw [hq]
  simp only [hhdr, Bool.false_eq_true, if_false, hf, ht, hm]

/-- The header line of the worked example. -/
def l1ex : Str := ("=== build_gcc14_xsimd ===").data

/-- The xtensor data line of the worked example. -/
def l2ex : Str := ("\"xtensor_double_4\",100,1,250.5,...").data

/-- The fixed data line of the worked example. -/
def l3ex : Str := ("\"fixed_double_4\",100,1,180.0,...").data

/-- The build key of the worked example. -/
def bgx : Str := ("build_gcc14_xsimd").data

/-- The per-size data the worked example should produce at size 4. -/
def sdC1 : SD := [(ContainerType.xtensor, (501 : ℚ)/2), (ContainerType.fixed, 180)]

/-- The table the worked example should produce. -/
def tblC1 : Table := [(bgx, [(4, sdC1)])]

theorem parseFloat_250_5 : parseFloat (("250.5").data) = some ((501 : ℚ)/2) := by
  have h1 : digitsToNat ['2', '5', '0'] = 250 := by decide
  have h2 : digitsToNat ['5'] = 5 := by decide
  simp +decide [parseFloat]
  norm_num [h1, h2]

theorem parseFloat_180_0 : parseFloat (("180.0").data) = some ((180 : ℚ)) := by
  have h1 : digitsToNat ['1', '8', '0'] = 180 := by decide
  have h2 : digitsToNat ['0'] = 0 := by decide
  simp +decide [parseFloat]
  norm_num [h1, h2]

theorem parseLines_cons_ok (l : Str) (ls : List Str) (st st' : ParseState)
    (h : processLine st l = Except.ok st') :
    parseLines (l :: ls) st = parseLines ls st' := by
  show (match processLine st l with
    | Except.error e => Except.error e
    | Except.ok st2 => parseLines ls st2) = parseLines ls st'
  rw [h]

theorem c1_step1 : processLine ((none : Option Str), ([] : Table)) l1ex =
    Except.ok (some bgx, ([] : Table)) := by decide

theorem c1_step2 : processLine (some bgx, ([] : Table)) l2ex =
    Except.ok (some bgx, [(bgx, [(4, [(ContainerType.xtensor, (501 : ℚ)/2)])])]) := by
  rw [processLine_data bgx ([] : Table) l2ex
    (("xtensor_double_4\",100,1,250.5,...").data) (("250.5").data) ((501 : ℚ)/2)
    (ContainerType.xtensor, 4) (by decide) (by decide) (by decide) parseFloat_250_5 (by decide)]
  rfl

theorem c1_step3 :
    processLine (some bgx, [(bgx, [(4, [(ContainerType.xtensor, (501 : ℚ)/2)])])]) l3ex =
      Except.ok (some bgx, tblC1) := by
  rw [processLine_data bgx [(bgx, [(4, [(ContainerType.xtensor, (501 : ℚ)/2)])])] l3ex
    (("fixed_double_4\",100,1,180.0,...").data) (("180.0").data) ((180 : ℚ))
    (ContainerType.fixed, 4) (by decide) (by decide) (by decide) parseFloat_180_0 (by decide)]
  rfl

/-- C1: on the worked example (header `=== build_gcc14_xsimd ===`, a
`xtensor_double_4` row with cpu time 250.5 and a `fixed_double_4` row
with cpu time 180.0) the parser yields the table entry
`results['build_gcc14_xsimd'][4] = {xtensor: 250.5, fixed: 180.0}`, and
the comparison reporter emits the row with ratio `250.5/180.0 = 167/120`
(≈ 1.39, its two-decimal rounding is 1.39), winner `fixed`, and displayed
speedup factor 1.4. -/
theorem c1_example :
    parseFile [l1ex, l2ex, l3ex] = Except.ok tblC1 ∧
    lookupA bgx tblC1 = some [(4, sdC1)] ∧
    lookupA 4 [(4, sdC1)] = some sdC1 ∧
    lookupA ContainerType.xtensor sdC1 = some ((501 : ℚ)/2) ∧
    lookupA ContainerType.fixed sdC1 = some (180 : ℚ) ∧
    compRowFor [(4, sdC1)] 4 = some (mkRow 4 sdC1) ∧
    (mkRow 4 sdC1).rat = 167/120 ∧
    (round (100 * (mkRow 4 sdC1).rat) : ℤ) = 139 ∧
    (mkRow 4 sdC1).winner = ContainerType.fixed ∧
    (mkRow 4 sdC1).disp = 7/5 := by
  have hx : xtOf sdC1 = (501 : ℚ)/2 := rfl
  have hf : fxOf sdC1 = (180 : ℚ) := rfl
  have hg : 0 < xtOf sdC1 ∧ 0 < fxOf sdC1 := by
    rw [hx, hf]
    norm_num
  have hrat : xtOf sdC1 / fxOf sdC1 = 167/120 := by
    rw [hx, hf]
    norm_num
  have hone : (1 : ℚ) < xtOf sdC1 / fxOf sdC1 := by
    rw [hrat]
    norm_num
  refine ⟨?_, rfl, rfl, rfl, rfl, ?_, ?_, ?_, ?_, ?_⟩
  · unfold parseFile
    show (parseLines [l1ex, l2ex, l3ex] (none, [])).map (fun st => st.2) = Except.ok tblC1
    rw [parseLines_cons_ok _ _ _ _ c1_step1, parseLines_cons_ok _ _ _ _ c1_step2,
      parseLines_cons_ok _ _ _ _ c1_step3]
    rfl
  · have hrow := compRowFor_some_sd [(4, sdC1)] 4 sdC1 rfl
    rw [if_pos hg] at hrow
    exact hrow
  · exact hrat
  · show (round (100 * (xtOf sdC1 / fxOf sdC1)) : ℤ) = 139
    rw [hrat]
    have e1 : (100 : ℚ) * (167/120) = 835/6 := by norm_num
    rw [e1, round_eq]
    have e2 : (835 : ℚ)/6 + 1/2 = 838/6 := by norm_num
    rw [e2, Int.floor_eq_iff]
    constructor <;> norm_num
  · show (if 1 < xtOf sdC1 / fxOf sdC1 then ContainerType.fixed else ContainerType.xtensor) =
      ContainerType.fixed
    rw [if_pos hone]
  · show (if 1 < xtOf sdC1 / fxOf sdC1 then round1 (xtOf sdC1 / fxOf sdC1)
      else round1 (1 / (xtOf sdC1 / fxOf sdC1))) = 7/5
    rw [if_pos hone, hrat]
    unfold round1
    have e1 : (10 : ℚ) * (167/120) = 167/12 := by norm_num
    rw [e1, round_eq]
    have e2 : (167 : ℚ)/12 + 1/2 = 173/12 := by norm_num
    rw [e2]
    have e3 : ⌊(173 : ℚ)/12⌋ = (14 : ℤ) := by
      rw [Int.floor_eq_iff]
      constructor <;> norm_num
    rw [e3]
    norm_num

theorem foldl_bwStep_decompose (L : List (Str × ℚ)) :
    ∀ acc : BW,
      L.foldl bwStep acc =
        { bt := (L.foldl bStep (acc.bt, acc.bc)).1
          bc := (L.foldl bStep (acc.bt, acc.bc)).2
          wt := (L.foldl wStep (acc.wt, acc.wc)).1
          wc := (L.foldl wStep (acc.wt, acc.wc)).2 } := by
  induction L with
  | nil => intro acc; rfl
  | cons p L' ih =>
    intro acc
    rw [List.foldl_cons, List.foldl_cons, List.foldl_cons, ih]
    rfl

theorem bStep_invariant (L : List (Str × ℚ)) :
    ∀ (b : ℚ) (c : Str),
      (L.foldl bStep (some b, c) = (some b, c) ∧ ∀ p ∈ L, b ≤ p.2) ∨
      (∃ q L₁ L₂, L = L₁ ++ q :: L₂ ∧ L.foldl bStep (some b, c) = (some q.2, q.1) ∧
        q.2 < b ∧ (∀ p ∈ L₁, q.2 < p.2) ∧ (∀ p ∈ L, q.2 ≤ p.2)) := by
  induction L with
  | nil => intro b c; exact Or.inl ⟨rfl, by simp⟩
  | cons p L' ih =>
    intro b c
    rw [List.foldl_cons]
    by_cases hpb : p.2 < b
    · have hstep : bStep (some b, c) p = (some p.2, p.1) := by simp [bStep, ltBest, hpb]
      rw [hstep]
      rcases ih p.2 p.1 with ⟨heq, hall⟩ | ⟨q, L₁, L₂, hL, heq, hlt, hL₁, hall⟩
      · right
        refine ⟨p, [], L', rfl, heq, hpb, by simp, ?_⟩
        intro p' hp'
        rcases List.mem_cons.mp hp' with h | h
        · rw [h]
        · exact hall p' h
      · right
        refine ⟨q, p :: L₁, L₂, by simp [hL], heq, lt_trans hlt hpb, ?_, ?_⟩
        · intro p' hp'
          rcases List.mem_cons.mp hp' with h | h
          · rw [h]; exact hlt
          · exact hL₁ p' h
        · intro p' hp'
          rcases List.mem_cons.mp hp' with h | h
          · rw [h]; exact le_of_lt hlt
          · exact hall p' h
    · have hstep : bStep (some b, c) p = (some b, c) := by simp [bStep, ltBest, hpb]
      rw [hstep]
      rcases ih b c with ⟨heq, hall⟩ | ⟨q, L₁, L₂, hL, heq, hlt, hL₁, hall⟩
      · left
        refine ⟨heq, ?_⟩
        intro p' hp'
        rcases List.mem_cons.mp hp' with h | h
        · rw [h]; exact not_lt.mp hpb
        · exact hall p' h
      · right
        refine ⟨q, p :: L₁, L₂, by simp [hL], heq, hlt, ?_, ?_⟩
        · intro p' hp'
          rcases List.mem_cons.mp hp' with h | h
          · rw [h]; exact lt_of_lt_of_le hlt (not_lt.mp hpb)
          · exact hL₁ p' h
        · intro p' hp'
          rcases List.mem_cons.mp hp' with h | h
          · rw [h]; exact le_of_lt (lt_of_lt_of_le hlt (not_lt.mp hpb))
          · exact hall p' h

theorem bStep_from_none (L : List (Str × ℚ)) (c0 : Str) (hL : L ≠ []) :
    ∃ q L₁ L₂, L = L₁ ++ q :: L₂ ∧ L.foldl bStep (none, c0) = (some q.2, q.1) ∧
      (∀ p ∈ L₁, q.2 < p.2) ∧ (∀ p ∈ L, q.2 ≤ p.2) := by
  cases L with
  | nil => exact absurd rfl hL
  | cons p L' =>
    rw [List.foldl_cons]
    have hstep : bStep (none, c0) p = (some p.2, p.1) := by simp [bStep, ltBest]
    rw [hstep]
    rcases bStep_invariant L' p.2 p.1 with ⟨heq, hall⟩ | ⟨q, L₁, L₂, hL', heq, hlt, hL₁, hall⟩
    · refine ⟨p, [], L', rfl, heq, by simp, ?_⟩
      intro p' hp'
      rcases List.mem_cons.mp hp' with h | h
      · rw [h]
      · exact hall p' h
    · refine ⟨q, p :: L₁, L₂, by simp [hL'], heq, ?_, ?_⟩
      · intro p' hp'
        rcases List.mem_cons.mp hp' with h | h
        · rw [h]; exact hlt
        · exact hL₁ p' h
      · intro p' hp'
        rcases List.mem_cons.mp hp' with h | h
        · rw [h]; exact le_of_lt hlt
        · exact hall p' h

theorem wStep_invariant (L : List (Str × ℚ)) :
    ∀ (w : ℚ) (c : Str),
      (L.foldl wStep (w, c) = (w, c) ∧ ∀ p ∈ L, p.2 ≤ w) ∨
      (∃ r M₁ M₂, L = M₁ ++ r :: M₂ ∧ L.foldl wStep (w, c) = (r.2, r.1) ∧
        w < r.2 ∧ (∀ p ∈ M₁, p.2 < r.2) ∧ (∀ p ∈ L, p.2 ≤ r.2)) := by
  induction L with
  | nil => intro w c; exact Or.inl ⟨rfl, by simp⟩
  | cons p L' ih =>
    intro w c
    rw [List.foldl_cons]
    by_cases hwp : w < p.2
    · have hstep : wStep (w, c) p = (p.2, p.1) := by simp [wStep, hwp]
      rw [hstep]
      rcases ih p.2 p.1 with ⟨heq, hall⟩ | ⟨r, M₁, M₂, hL, heq, hlt, hM₁, hall⟩
      · right
        refine ⟨p, [], L', rfl, heq, hwp, by simp, ?_⟩
        intro p' hp'
        rcases List.mem_cons.mp hp' with h | h
        · rw [h]
        · exact hall p' h
      · right
        refine ⟨r, p :: M₁, M₂, by simp [hL], heq, lt_trans hwp hlt, ?_, ?_⟩
        · intro p' hp'
          rcases List.mem_cons.mp hp' with h | h
          · rw [h]; exact hlt
          · exact hM₁ p' h
        · intro p' hp'
          rcases List.mem_cons.mp hp' with h | h
          · rw [h]; exact le_of_lt hlt
          · exact hall p' h
    · have hstep : wStep (w, c) p = (w, c) := by simp [wStep, hwp]
      rw [hstep]
      rcases ih w c with ⟨heq, hall⟩ | ⟨r, M₁, M₂, hL, heq, hlt, hM₁, hall⟩
      · left
        refine ⟨heq, ?_⟩
        intro p' hp'
        rcases List.mem_cons.mp hp' with h | h
        · rw [h]; exact not_lt.mp hwp
        · exact hall p' h
      · right
        refine ⟨r, p :: M₁, M₂, by simp [hL], heq, hlt, ?_, ?_⟩
        · intro p' hp'
          rcases List.mem_cons.mp hp' with h | h
          · rw [h]; exact lt_of_le_of_lt (not_lt.mp hwp) hlt
          · exact hM₁ p' h
        · intro p' hp'
          rcases List.mem_cons.mp hp' with h | h
          · rw [h]; exact le_of_lt (lt_of_le_of_lt (not_lt.mp hwp) hlt)
          · exact hall p' h

theorem configLabel_ne_nil (compiler mode : Str) (ct : ContainerType) :
    configLabel compiler mode ct ≠ ([] : Str) := by
  unfold configLabel
  simp

theorem mem_collect_ne_nil (tbl : Table) (size : Nat) :
    ∀ p ∈ collectMeasurements tbl size, p.1 ≠ ([] : Str) := by
  intro p hp
  unfold collectMeasurements at hp
  rcases List.mem_flatten.mp hp with ⟨l, hl, hpl⟩
  rcases List.mem_map.mp hl with ⟨bd, _, rfl⟩
  rcases List.mem_filterMap.mp hpl with ⟨ct, _, hf⟩
  rcases hsd : lookupA size bd.2 with _ | sd
  · simp only [hsd] at hf
    exact Option.noConfusion hf
  · simp only [hsd] at hf
    rcases hv : lookupA ct sd with _ | t
    · simp only [hv] at hf
      exact Option.noConfusion hf
    · simp only [hv, Option.some.injEq] at hf
      rw [← hf]
      exact configLabel_ne_nil _ _ ct

/-- Concrete table refuting C7: a single build whose only measurement at
size 4 is an `xtensor` time of 0. -/
def tbl7ex : Table := [(("build_gcc14_xsimd").data, [(4, [(ContainerType.xtensor, (0 : ℚ))])])]

/-- C7 counterexample: at size 4 there is a recorded measurement (time 0)
and the first-encountered configuration attaining the global maximum is
`gcc14_xsimd_xtensor`, yet the scan reports the best label while the
worst label stays empty — the reported worst label is not the
first-encountered maximal configuration. -/
theorem c7_counterexample :
    collectMeasurements tbl7ex 4 = [(("gcc14_xsimd_xtensor").data, (0 : ℚ))] ∧
    (bestWorstAt tbl7ex 4).bc = ("gcc14_xsimd_xtensor").data ∧
    (bestWorstAt tbl7ex 4).wc = ([] : Str) ∧
    firstMax (collectMeasurements tbl7ex 4) = some ((("gcc14_xsimd_xtensor").data, (0 : ℚ))) ∧
    ("gcc14_xsimd_xtensor").data ≠ ([] : Str) := by decide

/-- C7 (amended): for every table and size, if no measurement is
recorded the scan state stays initial (empty best label, so no row is
printed); otherwise the best label and time are those of the
first-encountered measurement attaining the global minimum, and for the
worst side either some measurement is strictly positive and the worst
label and time are those of the first-encountered measurement attaining
the global maximum, or every measurement is ≤ 0 and the worst label
stays empty with time 0. -/
theorem c7_best_worst (tbl : Table) (size : Nat) :
    (collectMeasurements tbl size = [] → bestWorstAt tbl size = bwInit) ∧
    (collectMeasurements tbl size ≠ [] →
      (bestWorstAt tbl size).bc ≠ [] ∧
      (∃ q L₁ L₂, collectMeasurements tbl size = L₁ ++ q :: L₂ ∧
        (bestWorstAt tbl size).bc = q.1 ∧ (bestWorstAt tbl size).bt = some q.2 ∧
        (∀ p ∈ L₁, q.2 < p.2) ∧ (∀ p ∈ collectMeasurements tbl size, q.2 ≤ p.2)) ∧
      ((∃ r M₁ M₂, collectMeasurements tbl size = M₁ ++ r :: M₂ ∧ 0 < r.2 ∧
          (bestWorstAt tbl size).wc = r.1 ∧ (bestWorstAt tbl size).wt = r.2 ∧
          (∀ p ∈ M₁, p.2 < r.2) ∧ (∀ p ∈ collectMeasurements tbl size, p.2 ≤ r.2)) ∨
        ((∀ p ∈ collectMeasurements tbl size, p.2 ≤ 0) ∧
          (bestWorstAt tbl size).wc = [] ∧ (bestWorstAt tbl size).wt = 0))) := by
  have hdec := foldl_bwStep_decompose (collectMeasurements tbl size) bwInit
  constructor
  · intro hL
    unfold bestWorstAt
    rw [hL]
    rfl
  · intro hL
    have hbw : bestWorstAt tbl size =
        { bt := ((collectMeasurements tbl size).foldl bStep (none, [])).1
          bc := ((collectMeasurements tbl size).foldl bStep (none, [])).2
          wt := ((collectMeasurements tbl size).foldl wStep (0, [])).1
          wc := ((collectMeasurements tbl size).foldl wStep (0, [])).2 } := hdec
    rcases bStep_from_none (collectMeasurements tbl size) [] hL with
      ⟨q, L₁, L₂, hLq, heq, hL₁, hall⟩
    have hbc : (bestWorstAt tbl size).bc = q.1 := by rw [hbw, heq]
    have hbt : (bestWorstAt tbl size).bt = some q.2 := by rw [hbw, heq]
    refine ⟨?_, ⟨q, L₁, L₂, hLq, hbc, hbt, hL₁, hall⟩, ?_⟩
    · rw [hbc]
      have hq : q ∈ collectMeasurements tbl size := by
        rw [hLq]
        exact List.mem_append.mpr (Or.inr (List.mem_cons_self q L₂))
      exact mem_collect_ne_nil tbl size q hq
    · rcases wStep_invariant (collectMeasurements tbl size) 0 [] with
        ⟨heqw, hallw⟩ | ⟨r, M₁, M₂, hLr, heqw, hltw, hM₁, hallw⟩
      · right
        exact ⟨hallw, by rw [hbw, heqw], by rw [hbw, heqw]⟩
      · left
        exact ⟨r, M₁, M₂, hLr, hltw, by rw [hbw, heqw], by rw [hbw, heqw], hM₁, hallw⟩

/-- C7 witness: the amended best/worst characterisation applied to a
concrete two-measurement table at size 4. -/
theorem c7_best_worst_witness :
    (bestWorstAt [(("build_gcc14_xsimd").data,
        [(4, [(ContainerType.xtensor, (3 : ℚ)), (ContainerType.fixed, 2)])])] 4).bc ≠ [] ∧
    (∃ q L₁ L₂, collectMeasurements [(("build_gcc14_xsimd").data,
        [(4, [(ContainerType.xtensor, (3 : ℚ)), (ContainerType.fixed, 2)])])] 4 =
        L₁ ++ q :: L₂ ∧
      (bestWorstAt [(("build_gcc14_xsimd").data,
        [(4, [(ContainerType.xtensor, (3 : ℚ)), (ContainerType.fixed, 2)])])] 4).bc = q.1 ∧
      (bestWorstAt [(("build_gcc14_xsimd").data,
        [(4, [(ContainerType.xtensor, (3 : ℚ)), (ContainerType.fixed, 2)])])] 4).bt = some q.2 ∧
      (∀ p ∈ L₁, q.2 < p.2) ∧
      (∀ p ∈ collectMeasurements [(("build_gcc14_xsimd").data,
        [(4, [(ContainerType.xtensor, (3 : ℚ)), (ContainerType.fixed, 2)])])] 4, q.2 ≤ p.2)) ∧
    ((∃ r M₁ M₂, collectMeasurements [(("build_gcc14_xsimd").data,
        [(4, [(ContainerType.xtensor, (3 : ℚ)), (ContainerType.fixed, 2)])])] 4 =
        M₁ ++ r :: M₂ ∧ 0 < r.2 ∧
      (bestWorstAt [(("build_gcc14_xsimd").data,
        [(4, [(ContainerType.xtensor, (3 : ℚ)), (ContainerType.fixed, 2)])])] 4).wc = r.1 ∧
      (bestWorstAt [(("build_gcc14_xsimd").data,
        [(4, [(ContainerType.xtensor, (3 : ℚ)), (ContainerType.fixed, 2)])])] 4).wt = r.2 ∧
      (∀ p ∈ M₁, p.2 < r.2) ∧
      (∀ p ∈ collectMeasurements [(("build_gcc14_xsimd").data,
        [(4, [(ContainerType.xtensor, (3 : ℚ)), (ContainerType.fixed, 2)])])] 4, p.2 ≤ r.2)) ∨
      ((∀ p ∈ collectMeasurements [(("build_gcc14_xsimd").data,
        [(4, [(ContainerType.xtensor, (3 : ℚ)), (ContainerType.fixed, 2)])])] 4, p.2 ≤ 0) ∧
      (bestWorstAt [(("build_gcc14_xsimd").data,
        [(4, [(ContainerType.xtensor, (3 : ℚ)), (ContainerType.fixed, 2)])])] 4).wc = [] ∧
      (bestWorstAt [(("build_gcc14_xsimd").data,
        [(4, [(ContainerType.xtensor, (3 : ℚ)), (ContainerType.fixed, 2)])])] 4).wt = 0)) :=
  (c7_best_worst [(("build_gcc14_xsimd").data,
    [(4, [(ContainerType.xtensor, (3 : ℚ)), (ContainerType.fixed, 2)])])] 4).2 (by decide)

/-- Code-point lexicographic order on strings, models Python's string
comparison used by `sorted`. -/
def lexLe : Str → Str → Bool
  | [], _ => true
  | _ :: _, [] => false
  | a :: as, b :: bs => if a = b then lexLe as bs else decide (a < b)

/-- Insertion into an already sorted list of strings. -/
def insertSorted (x : Str) : List Str → List Str
  | [] => [x]
  | y :: ys => if lexLe x y then x :: y :: ys else y :: insertSorted x ys

/-- Models Python's `sorted(...)` over string keys. -/
def sortStr (l : List Str) : List Str := l.foldr insertSorted []

/-- Groups the table by compiler, iterating builds in sorted key order:
`compilers[compiler][xsimd_status] = results[build]`. -/
def compilersGroup (tbl : Table) : List (Str × List (Str × BuildData)) :=
  (sortStr (tbl.map Prod.fst)).foldl
    (fun acc b =>
      match lookupA b tbl with
      | none => acc
      | some d =>
        updAssoc (parse_build_name b).1
          (fun om => updAssoc (parse_build_name b).2 (fun _ => d) (om.getD [])) acc)
    []

/-- The comparison-report sections: for each compiler in sorted order and
each mode in the fixed order `['xsimd', 'noxsimd']` that is present, the
emitted rows. -/
def comparisonReport (tbl : Table) : List (Str × Str × List CompRow) :=
  ((sortStr ((compilersGroup tbl).map Prod.fst)).map
    (fun c =>
      match lookupA c (compilersGroup tbl) with
      | none => []
      | some modes =>
        ([("xsimd").data, ("noxsimd").data]).filterMap
          (fun m => (lookupA m modes).map (fun d => (c, m, comparisonRows d))))).flatten

/-- The printed best/worst rows: one row per size whose best label is
nonempty. -/
def bestWorstReport (tbl : Table) : List (Nat × Str × ℚ × Str × ℚ) :=
  sizesList.filterMap (fun s =>
    if (bestWorstAt tbl s).bc = ([] : Str) then none
    else some (s, (bestWorstAt tbl s).bc, ((bestWorstAt tbl s).bt).getD 0,
      (bestWorstAt tbl s).wc, (bestWorstAt tbl s).wt))

/-- The win-summary rows: per compiler (sorted) and present mode, the
`fixed` wins, the total compared sizes and the guarded average speedup. -/
def winReport (tbl : Table) : List (Str × Str × Nat × Nat × ℚ) :=
  ((sortStr ((compilersGroup tbl).map Prod.fst)).map
    (fun c =>
      match lookupA c (compilersGroup tbl) with
      | none => []
      | some modes =>
        ([("xsimd").data, ("noxsimd").data]).filterMap
          (fun m => (lookupA m modes).map (fun d =>
            (c, m, (winSummary d).1, (winSummary d).1 + (winSummary d).2.1,
              avgSpeedup d))))).flatten

/-- The whole program run, abstracted to the data of every printed row of
the three reports (or the fatal parse error). -/
def programOutput (ls : List Str) :
    Except ParseErr
      (List (Str × Str × List CompRow) × List (Nat × Str × ℚ × Str × ℚ) ×
        List (Str × Str × Nat × Nat × ℚ)) :=
  (parseFile ls).map (fun tbl => (comparisonReport tbl, bestWorstReport tbl, winReport tbl))

/-- C10: the program is deterministic — the full output (every row of all
three reports) is a function of the input file's line contents alone: two
runs on equal file contents produce equal output.  In the embedding every
construct of the script (insertion-ordered dicts, `sorted`, the fixed
iteration orders) is a pure function, so no run-to-run variation exists. -/
theorem c10_deterministic (ls₁ ls₂ : List Str) (h : ls₁ = ls₂) :
    programOutput ls₁ = programOutput ls₂ := by rw [h]

/-- C10 witness: determinism applied at a concrete one-line input. -/
theorem c10_deterministic_witness :
    programOutput [("=== build_gcc14_xsimd ===").data] =
      programOutput [("=== build_gcc14_xsimd ===").data] :=
  c10_deterministic [("=== build_gcc14_xsimd ===").data]
    [("=== build_gcc14_xsimd ===").data] rfl

end ParseResults
